import Mathlib

/-!
Verification of the BFHL API server (`src/index.js`).

The JavaScript source is shallowly embedded in Lean:
* JSON values reaching the handlers are modelled by `JSVal`; JavaScript
  numbers are idealized as exact rationals `ℚ` (every number produced by
  `JSON.parse` is a dyadic rational, and all arithmetic the claims are
  about stays within the exactly-representable range).
* Functions that `throw` are modelled with `Except String`, carrying the
  thrown message.
* Computations that need not terminate (the recursive `gcd` reached with a
  non-numeric accumulator) are wrapped in `Option`, `none` standing for
  divergence.
-/

/-- A JSON-like runtime value, as produced by `express.json()` parsing a
request body.  Numbers are idealized as exact rationals. -/
inductive JSVal : Type where
  | num  (q : ℚ)
  | str  (s : String)
  | bool (b : Bool)
  | null
  | arr  (elems : List JSVal)
  | obj  (fields : List (String × JSVal))

/-- JavaScript truncation toward zero, as used by the `%` operator:
`Math.trunc` of a rational. -/
def jstrunc (q : ℚ) : ℤ :=
  if q < 0 then ⌈q⌉ else ⌊q⌋

/-- The JavaScript remainder operator `a % b` on (idealized) numbers:
`a - b * trunc (a / b)`. -/
def jsmod (a b : ℚ) : ℚ :=
  a - b * (jstrunc (a / b) : ℚ)

theorem abs_sub_jstrunc_lt_one (q : ℚ) : |q - (jstrunc q : ℚ)| < 1 := by
  unfold jstrunc
  split
  · rw [abs_sub_comm, abs_of_nonneg (sub_nonneg.2 (Int.le_ceil q))]
    have h := Int.ceil_lt_add_one q
    push_cast at h ⊢
    linarith
  · rw [abs_of_nonneg (sub_nonneg.2 (Int.floor_le q))]
    have h := Int.lt_floor_add_one q
    push_cast at h ⊢
    linarith

/-- Each step of the Euclidean recursion strictly shrinks the second
argument in absolute value: `|a % b| < |b|` whenever `b ≠ 0`. -/
theorem abs_jsmod_lt (a b : ℚ) (hb : b ≠ 0) : |jsmod a b| < |b| := by
  have h1 : jsmod a b = b * (a / b - (jstrunc (a / b) : ℚ)) := by
    unfold jsmod
    field_simp
  rw [h1, abs_mul]
  have h2 := abs_sub_jstrunc_lt_one (a / b)
  have hb' : 0 < |b| := abs_pos.2 hb
  calc |b| * |a / b - (jstrunc (a / b) : ℚ)| < |b| * 1 :=
        mul_lt_mul_of_pos_left h2 hb'
    _ = |b| := mul_one _

/-- A rational whose denominator divides `D` becomes an integer when
multiplied by `D`. -/
theorem mul_den_dvd_int (q : ℚ) (D : ℕ) (h : q.den ∣ D) :
    q * (D : ℚ) = ((q.num * (D / q.den : ℕ) : ℤ) : ℚ) := by
  have hden : (q.den : ℚ) ≠ 0 := Nat.cast_ne_zero.2 q.den_nz
  have hD : (D : ℚ) = (q.den : ℚ) * ((D / q.den : ℕ) : ℚ) := by
    rw [← Nat.cast_mul, Nat.mul_div_cancel' h]
  calc q * (D : ℚ) = ((q.num : ℚ) / (q.den : ℚ)) * ((q.den : ℚ) * ((D / q.den : ℕ) : ℚ)) := by
        rw [Rat.num_div_den, ← hD]
    _ = ((q.num * (D / q.den : ℕ) : ℤ) : ℚ) := by
        field_simp

/-- Conversely, if `q * D` is an integer (`D ≠ 0`) then `q.den ∣ D`. -/
theorem den_dvd_of_mul_int (q : ℚ) (D : ℕ) (hD : D ≠ 0) (n : ℤ)
    (h : q * (D : ℚ) = (n : ℚ)) : q.den ∣ D := by
  have hden : (q.den : ℚ) ≠ 0 := Nat.cast_ne_zero.2 q.den_nz
  have key : q.num * (D : ℤ) = n * (q.den : ℤ) := by
    have h' : ((q.num : ℚ) / (q.den : ℚ)) * (D : ℚ) = (n : ℚ) := by
      rw [Rat.num_div_den]; exact h
    have h'' : (q.num : ℚ) * (D : ℚ) = (n : ℚ) * (q.den : ℚ) := by
      field_simp at h'
      exact_mod_cast h'
    exact_mod_cast h''
  have hdvd : (q.den : ℤ) ∣ q.num * (D : ℤ) := ⟨n, by linarith [key]⟩
  have hdvd' : q.den ∣ q.num.natAbs * D := by
    have := Int.natAbs_dvd_natAbs.2 hdvd
    simpa [Int.natAbs_mul] using this
  exact (Nat.Coprime.dvd_of_dvd_mul_left q.reduced.symm hdvd')

/-- The remainder's denominator divides the lcm of the operands'
denominators. -/
theorem jsmod_den_dvd (a b : ℚ) :
    (jsmod a b).den ∣ Nat.lcm a.den b.den := by
  set D := Nat.lcm a.den b.den with hDdef
  have hDne : D ≠ 0 := (Nat.lcm_pos a.pos b.pos).ne'
  have ha : a.den ∣ D := Nat.dvd_lcm_left _ _
  have hb : b.den ∣ D := Nat.dvd_lcm_right _ _
  set t : ℤ := jstrunc (a / b) with htdef
  have hmul : jsmod a b * (D : ℚ)
      = ((a.num * (D / a.den : ℕ) - b.num * (D / b.den : ℕ) * t : ℤ) : ℚ) := by
    unfold jsmod
    rw [sub_mul]
    have h1 := mul_den_dvd_int a D ha
    have h2 := mul_den_dvd_int b D hb
    have : b * (t : ℚ) * (D : ℚ) = (b * (D : ℚ)) * (t : ℚ) := by ring
    rw [this, h2, h1]
    push_cast
    ring
  exact den_dvd_of_mul_int _ D hDne _ hmul

/-- Termination measure for the JavaScript `gcd` recursion on rationals:
`|b|` times the lcm of the operands' denominators (a natural number). -/
def gcdM (a b : ℚ) : ℕ :=
  b.num.natAbs * (Nat.lcm a.den b.den / b.den)

theorem gcdM_cast (a b : ℚ) :
    (gcdM a b : ℚ) = |b| * (Nat.lcm a.den b.den : ℚ) := by
  have hb : b.den ∣ Nat.lcm a.den b.den := Nat.dvd_lcm_right _ _
  have hdenpos : (0:ℚ) < (b.den : ℚ) := by exact_mod_cast b.pos
  have hden : (b.den : ℚ) ≠ 0 := ne_of_gt hdenpos
  have habs : |b| = |(b.num : ℚ)| / (b.den : ℚ) := by
    rw [← abs_of_pos hdenpos, ← abs_div, Rat.num_div_den]
  have hnum : |(b.num : ℚ)| = |b| * (b.den : ℚ) := by
    rw [habs, div_mul_cancel₀ _ hden]
  have hcast : ((b.num.natAbs : ℕ) : ℚ) = |(b.num : ℚ)| :=
    Int.cast_natAbs.trans Int.cast_abs
  unfold gcdM
  rw [Nat.cast_mul, Nat.cast_div hb hden, hcast, hnum]
  field_simp
  ring

/-- The measure strictly decreases along the `gcd` recursion. -/
theorem gcdM_decrease (a b : ℚ) (hb : b ≠ 0) :
    gcdM b (jsmod a b) < gcdM a b := by
  set r := jsmod a b with hr
  set D := Nat.lcm a.den b.den with hD
  set D' := Nat.lcm b.den r.den with hD'
  have hDpos : 0 < D := Nat.lcm_pos a.pos b.pos
  have hD'dvd : D' ∣ D :=
    Nat.lcm_dvd (Nat.dvd_lcm_right _ _) (jsmod_den_dvd a b)
  have hD'le : D' ≤ D := Nat.le_of_dvd hDpos hD'dvd
  have habs : |r| < |b| := abs_jsmod_lt a b hb
  have hq : (gcdM b r : ℚ) < (gcdM a b : ℚ) := by
    rw [gcdM_cast, gcdM_cast]
    have h1 : |r| * (D' : ℚ) ≤ |r| * (D : ℚ) :=
      mul_le_mul_of_nonneg_left (Nat.cast_le.2 hD'le) (abs_nonneg _)
    have h2 : |r| * (D : ℚ) < |b| * (D : ℚ) :=
      mul_lt_mul_of_pos_right habs (Nat.cast_pos.2 hDpos)
    calc |r| * (D' : ℚ) ≤ |r| * (D : ℚ) := h1
      _ < |b| * (D : ℚ) := h2
  exact_mod_cast hq

/-- The recursive `gcd` from `src/index.js`:
`gcd(a, b) = b === 0 ? a : gcd(b, a % b)`, on idealized numbers. -/
def gcdQ (a b : ℚ) : ℚ :=
  if b = 0 then a else gcdQ b (jsmod a b)
termination_by gcdM a b
decreasing_by exact gcdM_decrease a b (by assumption)

theorem gcdQ_zero (a : ℚ) : gcdQ a 0 = a := by
  unfold gcdQ; simp

theorem gcdQ_step (a b : ℚ) (hb : b ≠ 0) : gcdQ a b = gcdQ b (jsmod a b) := by
  conv_lhs => unfold gcdQ
  simp [hb]

/-- Fuel-indexed unrolling of the `gcd` recursion, used to express that the
recursion reaches its base case in finitely many steps. -/
def gcdFuel : ℕ → ℚ → ℚ → Option ℚ
  | 0, _, _ => none
  | n + 1, a, b => if b = 0 then some a else gcdFuel n b (jsmod a b)

theorem jsmod_den_one {a b : ℚ} (ha : a.den = 1) (hb : b.den = 1) :
    (jsmod a b).den = 1 := by
  have h := jsmod_den_dvd a b
  rw [ha, hb, Nat.lcm_self] at h
  exact Nat.dvd_one.1 h

theorem num_natAbs_lt {p q : ℚ} (hp : p.den = 1) (hq : q.den = 1)
    (h : |p| < |q|) : p.num.natAbs < q.num.natAbs := by
  have hp' : (p.num : ℚ) = p := (Rat.den_eq_one_iff p).1 hp
  have hq' : (q.num : ℚ) = q := (Rat.den_eq_one_iff q).1 hq
  rw [← hp', ← hq', ← Int.cast_abs, ← Int.cast_abs] at h
  have h' : |p.num| < |q.num| := by exact_mod_cast h
  rw [← Int.natCast_natAbs, ← Int.natCast_natAbs] at h'
  exact_mod_cast h'

/-- On integer arguments, fuel `|b| + 1` always suffices for the `gcd`
recursion to reach its base case. -/
theorem gcdFuel_int_sufficient :
    ∀ (n : ℕ) (a b : ℚ), a.den = 1 → b.den = 1 → b.num.natAbs ≤ n →
      gcdFuel (n + 1) a b = some (gcdQ a b) := by
  intro n
  induction n with
  | zero =>
    intro a b _ hb hle
    have hb0 : b = 0 := Rat.num_eq_zero.1 (by omega)
    subst hb0
    simp [gcdFuel, gcdQ_zero]
  | succ n ih =>
    intro a b ha hb hle
    by_cases hb0 : b = 0
    · subst hb0
      simp [gcdFuel, gcdQ_zero]
    · have hr_den : (jsmod a b).den = 1 := jsmod_den_one ha hb
      have hlt : (jsmod a b).num.natAbs < b.num.natAbs :=
        num_natAbs_lt hr_den hb (abs_jsmod_lt a b hb0)
      have hstep : gcdFuel (n + 1 + 1) a b = gcdFuel (n + 1) b (jsmod a b) := by
        simp [gcdFuel, hb0]
      rw [hstep, ih b (jsmod a b) hb hr_den (by omega), gcdQ_step a b hb0]

theorem jsmod_intCast_nonneg (a b : ℤ) (ha : 0 ≤ a) (hb : 0 < b) :
    jsmod (a : ℚ) (b : ℚ) = ((a % b : ℤ) : ℚ) := by
  have h2 : ((b.toNat : ℕ) : ℚ) = (b : ℚ) := by
    have h := Int.toNat_of_nonneg hb.le
    exact_mod_cast congrArg (fun z : ℤ => (z : ℚ)) h
  have h3 : ((b.toNat : ℕ) : ℤ) = b := Int.toNat_of_nonneg hb.le
  have hquot : jstrunc ((a : ℚ) / (b : ℚ)) = a / b := by
    have hnonneg : 0 ≤ (a : ℚ) / (b : ℚ) :=
      div_nonneg (by exact_mod_cast ha) (by exact_mod_cast hb.le)
    unfold jstrunc
    rw [if_neg (not_lt.2 hnonneg), ← h2, Rat.floor_intCast_div_natCast, h3]
  unfold jsmod
  rw [hquot, Int.emod_def]
  push_cast
  ring

theorem int_gcd_step (a b : ℤ) (ha : 0 ≤ a) (hb : 0 < b) :
    Int.gcd b (a % b) = Int.gcd a b := by
  have hm : (a % b).natAbs = a.natAbs % b.natAbs := by
    have h1 : 0 ≤ a % b := Int.emod_nonneg a hb.ne'
    have h2 : ((a % b).natAbs : ℤ) = a % b := Int.natAbs_of_nonneg h1
    have h3 : ((a.natAbs % b.natAbs : ℕ) : ℤ) = a % b := by
      push_cast [Int.natAbs_of_nonneg ha, Int.natAbs_of_nonneg hb.le]
      ring
    exact_mod_cast h2.trans h3.symm
  unfold Int.gcd
  rw [hm, Nat.gcd_comm b.natAbs, ← Nat.gcd_rec]
  exact Nat.gcd_comm _ _

/-- On nonnegative integers, the JavaScript `gcd` computes the usual gcd. -/
theorem gcdQ_intCast_nonneg :
    ∀ (k : ℕ) (a b : ℤ), 0 ≤ a → 0 ≤ b → b.natAbs ≤ k →
      gcdQ (a : ℚ) (b : ℚ) = ((Int.gcd a b : ℕ) : ℚ) := by
  intro k
  induction k with
  | zero =>
    intro a b ha _ hle
    have hb0 : b = 0 := by omega
    subst hb0
    push_cast
    rw [gcdQ_zero]
    have h1 : Int.gcd a 0 = a.natAbs := by simp [Int.gcd]
    rw [h1, Int.cast_natAbs.trans Int.cast_abs,
      abs_of_nonneg (show (0:ℚ) ≤ (a : ℚ) by exact_mod_cast ha)]
  | succ k ih =>
    intro a b ha hb hle
    by_cases hb0 : b = 0
    · subst hb0
      push_cast
      rw [gcdQ_zero]
      have h1 : Int.gcd a 0 = a.natAbs := by simp [Int.gcd]
      rw [h1, Int.cast_natAbs.trans Int.cast_abs,
        abs_of_nonneg (show (0:ℚ) ≤ (a : ℚ) by exact_mod_cast ha)]
    · have hbpos : 0 < b := lt_of_le_of_ne hb (Ne.symm hb0)
      have hbq : (b : ℚ) ≠ 0 := Int.cast_ne_zero.2 hb0
      rw [gcdQ_step _ _ hbq, jsmod_intCast_nonneg a b ha hbpos]
      have hr_nonneg : 0 ≤ a % b := Int.emod_nonneg a hb0
      have hr_lt : a % b < b := Int.emod_lt_of_pos a hbpos
      rw [ih b (a % b) hb hr_nonneg (by omega)]
      rw [int_gcd_step a b ha hbpos]

/-- The `lcm` arrow function inside `calculateLCM`:
`(a, b) => (a * b) / gcd(a, b)`. -/
def lcmQ (a b : ℚ) : ℚ := (a * b) / gcdQ a b

/-- The `for` loop inside `generateFibonacci`: starting from `fib = [0, 1]`
and `i = 2`, while `i < n` it pushes `fib[i-1] + fib[i-2]`. -/
def fibLoop (n : ℕ) (i : ℕ) (fib : List ℤ) : List ℤ :=
  if i < n then
    fibLoop n (i + 1) (fib ++ [fib.getD (i - 1) 0 + fib.getD (i - 2) 0])
  else fib
termination_by n - i

/-- `generateFibonacci` after its argument validation: the three cases
`n === 0`, `n === 1` and the loop. -/
def fibCompute (n : ℕ) : List ℤ :=
  if n = 0 then []
  else if n = 1 then [0]
  else fibLoop n 2 [0, 1]

/-- `generateFibonacci` from `src/index.js`.  The guard
`!Number.isInteger(n) || n < 0` throws `Input must be a non-negative
integer`. -/
def generateFibonacci (v : JSVal) : Except String (List ℤ) :=
  match v with
  | .num q =>
    if q.den = 1 ∧ 0 ≤ q then .ok (fibCompute q.num.toNat)
    else .error "Input must be a non-negative integer"
  | _ => .error "Input must be a non-negative integer"

/-- The trial-division loop of `isPrime`:
`for (let i = 3; i <= Math.sqrt(num); i += 2)`.  For integers the loop
bound `i <= Math.sqrt(num)` is equivalent to `i * i <= num` (rounding of
`Math.sqrt` is monotone and `i` is exactly representable). -/
def trialLoop (num : ℕ) (i : ℕ) : Bool :=
  if h : i * i ≤ num then
    (if num % i = 0 then false else trialLoop num (i + 2))
  else true
termination_by num + 1 - i
decreasing_by
  have hi : i ≤ num := by
    by_cases h1 : i = 0
    · omega
    · have h2 : i * 1 ≤ i * i := Nat.mul_le_mul_left i (by omega)
      rw [Nat.mul_one] at h2
      exact le_trans h2 h
  omega

/-- `isPrime` from `src/index.js`: values below 2 are rejected, 2 is
accepted, even values are rejected, then odd trial division runs. -/
def isPrime (num : ℤ) : Bool :=
  if num < 2 then false
  else if num = 2 then true
  else if num % 2 = 0 then false
  else trialLoop num.toNat 3

/-- The `arr.filter(...)` traversal of `filterPrimes`: each element must be
an integer (else the callback throws) and is kept iff `isPrime` holds. -/
def filterPrimesList : List JSVal → Except String (List JSVal)
  | [] => .ok []
  | x :: xs =>
    match x with
    | .num q =>
      if q.den = 1 then
        (filterPrimesList xs).map
          (fun rest => if isPrime q.num then x :: rest else rest)
      else .error "All elements must be integers"
    | _ => .error "All elements must be integers"

/-- `filterPrimes` from `src/index.js`. -/
def filterPrimes (v : JSVal) : Except String (List JSVal) :=
  match v with
  | .arr l => filterPrimesList l
  | _ => .error "Input must be an array"

/-- The `arr.reduce(...)` traversal of `calculateHCF` without an initial
value: the accumulator starts as the raw (unvalidated) first element; every
later element is validated and folded with `gcd`.  A non-numeric
accumulator makes the JavaScript `gcd` recurse forever (`NaN` never equals
`0`), modelled as `none`. -/
def reduceHCF : JSVal → List JSVal → Option (Except String JSVal)
  | acc, [] => some (.ok acc)
  | acc, x :: xs =>
    match x with
    | .num q =>
      if q.den = 1 ∧ 0 < q then
        match acc with
        | .num aq => reduceHCF (.num (gcdQ aq q)) xs
        | _ => none
      else some (.error "All elements must be positive integers")
    | _ => some (.error "All elements must be positive integers")

/-- `calculateHCF` from `src/index.js`. -/
def calculateHCF (v : JSVal) : Option (Except String JSVal) :=
  match v with
  | .arr (x :: xs) => reduceHCF x xs
  | .arr [] => some (.error "Input must be a non-empty array")
  | _ => some (.error "Input must be a non-empty array")

/-- The `arr.reduce(...)` traversal of `calculateLCM`, folding with
`(a, b) => (a * b) / gcd(a, b)`. -/
def reduceLCM : JSVal → List JSVal → Option (Except String JSVal)
  | acc, [] => some (.ok acc)
  | acc, x :: xs =>
    match x with
    | .num q =>
      if q.den = 1 ∧ 0 < q then
        match acc with
        | .num aq => reduceLCM (.num (lcmQ aq q)) xs
        | _ => none
      else some (.error "All elements must be positive integers")
    | _ => some (.error "All elements must be positive integers")

/-- `calculateLCM` from `src/index.js`. -/
def calculateLCM (v : JSVal) : Option (Except String JSVal) :=
  match v with
  | .arr (x :: xs) => reduceLCM x xs
  | .arr [] => some (.error "Input must be a non-empty array")
  | _ => some (.error "Input must be a non-empty array")

/-- The characters removed by the cleaning replaces in `getAIResponse`:
the two regexes over `*` jointly delete every `*`; then every backtick
(code 96); then the punctuation class `[.,!?;:'"()]` (codes 39 and 34 are
the apostrophe and the double quote). -/
def strippedChars : List Char :=
  ['*', Char.ofNat 96, '.', ',', '!', '?', ';', ':',
   Char.ofNat 39, Char.ofNat 34, '(', ')']

/-- JavaScript `String.prototype.trim` on an (ASCII-idealized) character
list. -/
def jsTrim (l : List Char) : List Char :=
  ((l.dropWhile Char.isWhitespace).reverse.dropWhile Char.isWhitespace).reverse

/-- The character-class removals of the cleaning pipeline. -/
def stripChars (l : List Char) : List Char :=
  l.filter (fun c => !strippedChars.contains c)

/-- `.split(/[\s\n\r]+/)[0]` applied to an already-trimmed string: the
maximal whitespace-free prefix. -/
def firstToken (l : List Char) : List Char :=
  l.takeWhile (fun c => !c.isWhitespace)

/-- Lines 120–145 of `src/index.js`: the text-normalization step of
`getAIResponse`.  An empty/whitespace-only raw text throws
`Empty response from AI`; text that cleans to nothing throws
`Could not extract answer`; otherwise the first cleaned token is
returned. -/
def normalizeResponse (text : String) : Except String String :=
  if jsTrim text.toList = [] then .error "Empty response from AI"
  else
    let cleaned := firstToken (jsTrim (stripChars text.toList))
    if cleaned = [] then .error "Could not extract answer"
    else .ok cleaned.asString

/-- The possible outcomes of the external `model.generateContent` call, an
injected capability: the call (or `response.text()`) throws, the result has
no `response`, or it yields raw text. -/
inductive AIOutcome : Type where
  | threw
  | noResponse
  | responded (text : String)

/-- `getAIResponse` from `src/index.js`: argument validation happens before
the `try` block; everything thrown inside the `try` (capability failure,
missing/empty response, failed extraction) is re-thrown as the single
message `AI API request failed`. -/
def getAIResponse (cap : AIOutcome) (question : JSVal) : Except String String :=
  match question with
  | .str q =>
    if jsTrim q.toList = [] then .error "Question must be a non-empty string"
    else
      match cap with
      | .threw => .error "AI API request failed"
      | .noResponse => .error "AI API request failed"
      | .responded text =>
        match normalizeResponse text with
        | .ok t => .ok t
        | .error _ => .error "AI API request failed"
  | _ => .error "Question must be a non-empty string"

/-- Process-wide configuration: `process.env.OFFICIAL_EMAIL`. -/
structure Config : Type where
  official_email : String

/-- The JSON envelope sent by the `/bfhl` route, together with the HTTP
status code. -/
structure HttpResponse : Type where
  status : ℕ
  is_success : Bool
  official_email : String
  data : Option JSVal
  error : Option String

/-- The recognized operation keys. -/
def validKeys : List String := ["fibonacci", "prime", "lcm", "hcf", "AI"]

/-- `Object.keys(body).filter(key => validKeys.includes(key))`. -/
def providedKeys (fields : List (String × JSVal)) : List String :=
  (fields.map Prod.fst).filter (fun k => validKeys.contains k)

/-- JavaScript property access `body[key]` on a parsed JSON object. -/
def lookupKey (fields : List (String × JSVal)) (k : String) : JSVal :=
  match fields with
  | [] => .null
  | (k', v) :: rest => if k' = k then v else lookupKey rest k

/-- The `switch (key)` of the `/bfhl` handler, returning the operation's
result (`none` = the operation diverges). -/
def runOp (cap : AIOutcome) (k : String) (v : JSVal) :
    Option (Except String JSVal) :=
  if k = "fibonacci" then
    some ((generateFibonacci v).map (fun l => .arr (l.map (fun z => .num (z : ℚ)))))
  else if k = "prime" then some ((filterPrimes v).map .arr)
  else if k = "lcm" then calculateLCM v
  else if k = "hcf" then calculateHCF v
  else if k = "AI" then some ((getAIResponse cap v).map .str)
  else some (.error "Invalid key provided")

/-- The `POST /bfhl` handler: key-cardinality validation, dispatch, and the
uniform success/error envelope (the `catch` turns any thrown message into a
`400` body). -/
def handlePost (cfg : Config) (cap : AIOutcome)
    (fields : List (String × JSVal)) : Option HttpResponse :=
  if (providedKeys fields).length = 0 then
    some ⟨400, false, cfg.official_email, none,
      some "Request must contain exactly one of: fibonacci, prime, lcm, hcf, AI"⟩
  else if (providedKeys fields).length > 1 then
    some ⟨400, false, cfg.official_email, none,
      some "Request must contain exactly one key, found multiple"⟩
  else
    match runOp cap ((providedKeys fields).headD "")
        (lookupKey fields ((providedKeys fields).headD "")) with
    | none => none
    | some (.ok d) => some ⟨200, true, cfg.official_email, some d, none⟩
    | some (.error e) => some ⟨400, false, cfg.official_email, none, some e⟩

/-- The validation predicate of `getAIResponse`:
`typeof question === 'string' && question.trim() !== ''`. -/
def isNonEmptyString (v : JSVal) : Bool :=
  match v with
  | .str s => !(jsTrim s.toList).isEmpty
  | _ => false

theorem providedKeys_filter (fields : List (String × JSVal)) :
    providedKeys (fields.filter (fun p => validKeys.contains p.1))
      = providedKeys fields := by
  unfold providedKeys
  induction fields with
  | nil => rfl
  | cons p rest ih =>
    by_cases h : validKeys.contains p.1 = true
    · simp only [List.filter_cons, List.map_cons, h, if_true, ih]
    · have h' : validKeys.contains p.1 = false := by simpa using h
      simp only [List.filter_cons, List.map_cons, h', Bool.false_eq_true,
        if_false, ih]

theorem lookupKey_filter (fields : List (String × JSVal)) (k : String)
    (hk : validKeys.contains k = true) :
    lookupKey (fields.filter (fun p => validKeys.contains p.1)) k
      = lookupKey fields k := by
  induction fields with
  | nil => rfl
  | cons p rest ih =>
    obtain ⟨k', v⟩ := p
    by_cases h : k' = k
    · subst h
      simp only [List.filter_cons, hk, if_true, lookupKey]
    · by_cases h2 : validKeys.contains k' = true
      · simp only [List.filter_cons, h2, if_true, lookupKey, h, if_false, ih]
      · have h2' : validKeys.contains k' = false := by simpa using h2
        simp only [List.filter_cons, h2', Bool.false_eq_true, if_false,
          lookupKey, h, ih]

/-- C2: the dispatcher intersects the body's keys with the recognized set
`{fibonacci, prime, lcm, hcf, AI}`; an intersection of zero keys or of more
than one key yields a fixed `400` envelope with `is_success = false` and a
descriptive error, independent of the operation values and of the AI
capability (so before any computation); unrecognized keys are filtered out
before the cardinality check and do not affect processing. -/
theorem c2_dispatcher_key_validation (cfg : Config) (cap : AIOutcome)
    (fields : List (String × JSVal)) :
    ((providedKeys fields).length = 0 →
      handlePost cfg cap fields = some ⟨400, false, cfg.official_email, none,
        some "Request must contain exactly one of: fibonacci, prime, lcm, hcf, AI"⟩) ∧
    ((providedKeys fields).length > 1 →
      handlePost cfg cap fields = some ⟨400, false, cfg.official_email, none,
        some "Request must contain exactly one key, found multiple"⟩) ∧
    handlePost cfg cap fields
      = handlePost cfg cap (fields.filter (fun p => validKeys.contains p.1)) := by
  refine ⟨?_, ?_, ?_⟩
  · intro h
    unfold handlePost
    rw [if_pos h]
  · intro h
    unfold handlePost
    rw [if_neg (by omega), if_pos h]
  · unfold handlePost
    rw [providedKeys_filter]
    by_cases h0 : (providedKeys fields).length = 0
    · rw [if_pos h0, if_pos h0]
    · rw [if_neg h0, if_neg h0]
      by_cases h1 : (providedKeys fields).length > 1
      · rw [if_pos h1, if_pos h1]
      · rw [if_neg h1, if_neg h1]
        have hlen : (providedKeys fields).length = 1 := by omega
        obtain ⟨k, hk⟩ := List.length_eq_one.1 hlen
        have hkmem : validKeys.contains k = true := by
          have hmem : k ∈ providedKeys fields := by rw [hk]; simp
          unfold providedKeys at hmem
          exact (List.mem_filter.1 hmem).2
        rw [hk]
        simp only [List.headD_cons]
        rw [lookupKey_filter fields k hkmem]

/-- Witness for C2 at a concrete request: a body whose only key is
unrecognized is rejected with the fixed `400` envelope. -/
theorem c2_dispatcher_key_validation_witness :
    handlePost ⟨"student@chitkara.edu.in"⟩ .threw [("foo", .null)]
      = some ⟨400, false, "student@chitkara.edu.in", none,
          some "Request must contain exactly one of: fibonacci, prime, lcm, hcf, AI"⟩ :=
  (c2_dispatcher_key_validation ⟨"student@chitkara.edu.in"⟩ .threw
    [("foo", .null)]).1 (by decide)

/-- C3: with exactly one recognized key, a failing operation yields a `400`
envelope carrying the failure's message and a successful operation yields a
`200` envelope carrying its data; and every `/bfhl` response carries the
configured `official_email`. -/
theorem c3_dispatcher_envelope (cfg : Config) (cap : AIOutcome)
    (fields : List (String × JSVal)) :
    (∀ k : String, providedKeys fields = [k] →
      (∀ e, runOp cap k (lookupKey fields k) = some (.error e) →
        handlePost cfg cap fields
          = some ⟨400, false, cfg.official_email, none, some e⟩) ∧
      (∀ d, runOp cap k (lookupKey fields k) = some (.ok d) →
        handlePost cfg cap fields
          = some ⟨200, true, cfg.official_email, some d, none⟩)) ∧
    (∀ r, handlePost cfg cap fields = some r →
      r.official_email = cfg.official_email) := by
  constructor
  · intro k hk
    have h0 : ¬ (providedKeys fields).length = 0 := by rw [hk]; simp
    have h1 : ¬ (providedKeys fields).length > 1 := by rw [hk]; simp
    constructor
    · intro e he
      unfold handlePost
      rw [if_neg h0, if_neg h1, hk]
      simp only [List.headD_cons]
      rw [he]
    · intro d hd
      unfold handlePost
      rw [if_neg h0, if_neg h1, hk]
      simp only [List.headD_cons]
      rw [hd]
  · intro r hr
    unfold handlePost at hr
    split_ifs at hr
    · exact congrArg HttpResponse.official_email (Option.some.inj hr).symm
    · exact congrArg HttpResponse.official_email (Option.some.inj hr).symm
    · split at hr
      · exact absurd hr (by simp)
      · exact congrArg HttpResponse.official_email (Option.some.inj hr).symm
      · exact congrArg HttpResponse.official_email (Option.some.inj hr).symm

/-- Witness for C3 at a concrete request: `{"hcf": ["z"]}` succeeds (the
single-element reduce returns the element untouched) with a `200` envelope
carrying the configured email. -/
theorem c3_dispatcher_envelope_witness :
    handlePost ⟨"student@chitkara.edu.in"⟩ .threw [("hcf", .arr [.str "z"])]
      = some ⟨200, true, "student@chitkara.edu.in", some (.str "z"), none⟩ :=
  ((c3_dispatcher_envelope ⟨"student@chitkara.edu.in"⟩ .threw
    [("hcf", .arr [.str "z"])]).1 "hcf" (by decide)).2 (.str "z") rfl

theorem mem_of_mem_takeWhile {α : Type} {p : α → Bool} :
    ∀ {l : List α} {c : α}, c ∈ l.takeWhile p → c ∈ l := by
  intro l
  induction l with
  | nil => intro c h; exact absurd h (by simp)
  | cons a rest ih =>
    intro c h
    rw [List.takeWhile_cons] at h
    by_cases hp : p a = true
    · rw [if_pos hp] at h
      rcases List.mem_cons.1 h with h1 | h2
      · exact List.mem_cons.2 (Or.inl h1)
      · exact List.mem_cons.2 (Or.inr (ih h2))
    · rw [if_neg hp] at h
      exact absurd h (by simp)

theorem mem_of_mem_dropWhile {α : Type} {p : α → Bool} :
    ∀ {l : List α} {c : α}, c ∈ l.dropWhile p → c ∈ l := by
  intro l
  induction l with
  | nil => intro c h; exact h
  | cons a rest ih =>
    intro c h
    rw [List.dropWhile_cons] at h
    by_cases hp : p a = true
    · rw [if_pos hp] at h
      exact List.mem_cons.2 (Or.inr (ih h))
    · rw [if_neg hp] at h
      exact h

theorem mem_of_mem_jsTrim {l : List Char} {c : Char} (h : c ∈ jsTrim l) :
    c ∈ l := by
  unfold jsTrim at h
  rw [List.mem_reverse] at h
  exact mem_of_mem_dropWhile (List.mem_reverse.1 (mem_of_mem_dropWhile h))

theorem mem_stripChars {l : List Char} {c : Char} (h : c ∈ stripChars l) :
    strippedChars.contains c = false ∧ c ∈ l := by
  unfold stripChars at h
  have h1 := List.mem_filter.1 h
  refine ⟨?_, h1.1⟩
  have := h1.2
  simp only [Bool.not_eq_true'] at this
  exact this

theorem jsTrim_eq_nil_of_ws {l : List Char}
    (h : ∀ c ∈ l, c.isWhitespace = true) : jsTrim l = [] := by
  unfold jsTrim
  rw [List.dropWhile_eq_nil_iff.2 h]
  rfl

/-- C7: the normalization step strips the markdown/backtick/punctuation
characters, trims, and returns the first whitespace-delimited token;
`"**Paris.**"` normalizes to `"Paris"`, `"  hello world  "` to `"hello"`;
whitespace-only input fails (`Empty response from AI`); and any returned
token is non-empty, whitespace-free and free of the stripped characters. -/
theorem c7_text_normalizer :
    normalizeResponse "**Paris.**" = .ok "Paris" ∧
    normalizeResponse "  hello world  " = .ok "hello" ∧
    (∀ s : String, (∀ c ∈ s.toList, c.isWhitespace = true) →
      normalizeResponse s = .error "Empty response from AI") ∧
    (∀ (s t : String), normalizeResponse s = .ok t →
      t.toList = firstToken (jsTrim (stripChars s.toList)) ∧
      t.toList ≠ [] ∧
      (∀ c ∈ t.toList, c.isWhitespace = false ∧
        strippedChars.contains c = false)) := by
  refine ⟨rfl, rfl, ?_, ?_⟩
  · intro s hs
    unfold normalizeResponse
    rw [if_pos (jsTrim_eq_nil_of_ws hs)]
  · intro s t h
    unfold normalizeResponse at h
    by_cases h0 : jsTrim s.toList = []
    · rw [if_pos h0] at h
      exact absurd h (by simp)
    · rw [if_neg h0] at h
      by_cases h1 : firstToken (jsTrim (stripChars s.toList)) = []
      · simp only [h1] at h
        exact absurd h (by simp)
      · rw [if_neg h1] at h
        have ht : t = (firstToken (jsTrim (stripChars s.toList))).asString :=
          (Except.ok.inj h).symm
        have htl : t.toList = firstToken (jsTrim (stripChars s.toList)) := by
          rw [ht, List.toList_asString]
        refine ⟨htl, by rw [htl]; exact h1, ?_⟩
        intro c hc
        rw [htl] at hc
        constructor
        · have := List.mem_takeWhile_imp hc
          simpa using this
        · have hmem : c ∈ jsTrim (stripChars s.toList) :=
            mem_of_mem_takeWhile hc
          exact (mem_stripChars (mem_of_mem_jsTrim hmem)).1

/-- Witness for C7: whitespace-only raw text fails with
`Empty response from AI`. -/
theorem c7_text_normalizer_witness :
    normalizeResponse "   " = .error "Empty response from AI" :=
  c7_text_normalizer.2.2.1 "   " (by decide)

/-- C8: `getAIResponse` rejects any non-string or blank question with the
specific message `Question must be a non-empty string`, regardless of the
AI capability (so without invoking it); once the question is valid, every
failure surfaces as the single generic message `AI API request failed`. -/
theorem c8_ai_error_opacity (cap : AIOutcome) (q : JSVal) :
    (isNonEmptyString q = false →
      getAIResponse cap q = .error "Question must be a non-empty string") ∧
    (isNonEmptyString q = true →
      ∀ e, getAIResponse cap q = .error e → e = "AI API request failed") := by
  constructor
  · intro h
    match q with
    | .str s =>
      have hmatch : (!(jsTrim s.toList).isEmpty) = false := h
      have h0 : jsTrim s.toList = [] := by
        simpa using hmatch
      simp only [getAIResponse]
      rw [if_pos h0]
    | .num _ => rfl
    | .bool _ => rfl
    | .null => rfl
    | .arr _ => rfl
    | .obj _ => rfl
  · intro h e he
    match q with
    | .str s =>
      have hmatch : (!(jsTrim s.toList).isEmpty) = true := h
      have h0 : ¬ jsTrim s.toList = [] := by
        intro hnil
        rw [hnil] at hmatch
        exact absurd hmatch (by decide)
      simp only [getAIResponse] at he
      rw [if_neg h0] at he
      match cap with
      | .threw => exact (Except.error.inj he).symm
      | .noResponse => exact (Except.error.inj he).symm
      | .responded text =>
        have he' : (match normalizeResponse text with
            | Except.ok t => Except.ok t
            | Except.error _ =>
              (Except.error "AI API request failed" : Except String String))
            = Except.error e := he
        cases hnr : normalizeResponse text with
        | error e' =>
          rw [hnr] at he'
          exact (Except.error.inj he').symm
        | ok t =>
          rw [hnr] at he'
          exact absurd he' (by simp)
    | .num _ => exact absurd h (by simp [isNonEmptyString])
    | .bool _ => exact absurd h (by simp [isNonEmptyString])
    | .null => exact absurd h (by simp [isNonEmptyString])
    | .arr _ => exact absurd h (by simp [isNonEmptyString])
    | .obj _ => exact absurd h (by simp [isNonEmptyString])

/-- Witness for C8: a numeric question is rejected with the validation
message (capability never consulted), and a valid question whose capability
call throws surfaces the generic message. -/
theorem c8_ai_error_opacity_witness :
    getAIResponse .threw (.num 5) = .error "Question must be a non-empty string" ∧
    "AI API request failed" = "AI API request failed" :=
  ⟨(c8_ai_error_opacity .threw (.num 5)).1 rfl,
   (c8_ai_error_opacity .threw (.str "capital of France")).2 (by decide) _ rfl⟩

/-- The HCF reduce over numeric accumulators and positive-integer elements
computes the left fold of `gcd`. -/
theorem reduceHCF_int (xs : List ℤ) : ∀ (aq : ℚ), (∀ y ∈ xs, 0 < y) →
    reduceHCF (.num aq) (xs.map (fun (z : ℤ) => JSVal.num (z : ℚ)))
      = some (.ok (.num (xs.foldl (fun (a : ℚ) (z : ℤ) => gcdQ a (z : ℚ)) aq))) := by
  induction xs with
  | nil => intro aq _; rfl
  | cons y ys ih =>
    intro aq hall
    have hy : 0 < y := hall y (by simp)
    have hden : ((y : ℚ)).den = 1 := Rat.den_intCast y
    have hpos : (0 : ℚ) < (y : ℚ) := by exact_mod_cast hy
    have hstep : reduceHCF (.num aq)
        ((y :: ys).map (fun (z : ℤ) => JSVal.num (z : ℚ)))
        = reduceHCF (.num (gcdQ aq (y : ℚ)))
            (ys.map (fun (z : ℤ) => JSVal.num (z : ℚ))) := by
      simp [reduceHCF, hden, hpos]
    rw [hstep, ih _ (fun z hz => hall z (by simp [hz])), List.foldl_cons]

/-- The LCM reduce over numeric accumulators and positive-integer elements
computes the left fold of `(a, b) => a * b / gcd(a, b)`. -/
theorem reduceLCM_int (xs : List ℤ) : ∀ (aq : ℚ), (∀ y ∈ xs, 0 < y) →
    reduceLCM (.num aq) (xs.map (fun (z : ℤ) => JSVal.num (z : ℚ)))
      = some (.ok (.num (xs.foldl (fun (a : ℚ) (z : ℤ) => lcmQ a (z : ℚ)) aq))) := by
  induction xs with
  | nil => intro aq _; rfl
  | cons y ys ih =>
    intro aq hall
    have hy : 0 < y := hall y (by simp)
    have hden : ((y : ℚ)).den = 1 := Rat.den_intCast y
    have hpos : (0 : ℚ) < (y : ℚ) := by exact_mod_cast hy
    have hstep : reduceLCM (.num aq)
        ((y :: ys).map (fun (z : ℤ) => JSVal.num (z : ℚ)))
        = reduceLCM (.num (lcmQ aq (y : ℚ)))
            (ys.map (fun (z : ℤ) => JSVal.num (z : ℚ))) := by
      simp [reduceLCM, hden, hpos]
    rw [hstep, ih _ (fun z hz => hall z (by simp [hz])), List.foldl_cons]

theorem gcdQ_ofInt (a b : ℤ) (ha : 0 ≤ a) (hb : 0 ≤ b) :
    gcdQ (a : ℚ) (b : ℚ) = ((Int.gcd a b : ℕ) : ℚ) :=
  gcdQ_intCast_nonneg b.natAbs a b ha hb le_rfl

theorem gcdQ_12_18 : gcdQ (12 : ℚ) 18 = 6 := by
  have h := gcdQ_ofInt 12 18 (by norm_num) (by norm_num)
  rw [show Int.gcd 12 18 = 6 from by decide] at h
  exact_mod_cast h

theorem gcdQ_6_24 : gcdQ (6 : ℚ) 24 = 6 := by
  have h := gcdQ_ofInt 6 24 (by norm_num) (by norm_num)
  rw [show Int.gcd 6 24 = 6 from by decide] at h
  exact_mod_cast h

theorem gcdQ_4_6 : gcdQ (4 : ℚ) 6 = 2 := by
  have h := gcdQ_ofInt 4 6 (by norm_num) (by norm_num)
  rw [show Int.gcd 4 6 = 2 from by decide] at h
  exact_mod_cast h

/-- C6: on a non-empty array of positive integers, `calculateHCF` returns
the left fold of `gcd` seeded with the first element, and `calculateLCM`
the left fold of `(a, b) => a * b / gcd(a, b)`; in particular
`hcf([12,18,24]) = 6` and `lcm([4,6]) = 12`. -/
theorem c6_hcf_lcm_folds (x : ℤ) (xs : List ℤ) (hx : 0 < x)
    (hxs : ∀ y ∈ xs, 0 < y) :
    calculateHCF (.arr ((x :: xs).map (fun (z : ℤ) => JSVal.num (z : ℚ))))
      = some (.ok (.num (xs.foldl (fun (a : ℚ) (z : ℤ) => gcdQ a (z : ℚ)) (x : ℚ)))) ∧
    calculateLCM (.arr ((x :: xs).map (fun (z : ℤ) => JSVal.num (z : ℚ))))
      = some (.ok (.num (xs.foldl (fun (a : ℚ) (z : ℤ) => lcmQ a (z : ℚ)) (x : ℚ)))) ∧
    calculateHCF (.arr [.num 12, .num 18, .num 24]) = some (.ok (.num 6)) ∧
    calculateLCM (.arr [.num 4, .num 6]) = some (.ok (.num 12)) := by
  refine ⟨?_, ?_, ?_, ?_⟩
  · rw [List.map_cons]
    exact reduceHCF_int xs (x : ℚ) hxs
  · rw [List.map_cons]
    exact reduceLCM_int xs (x : ℚ) hxs
  · have h : calculateHCF (.arr [.num 12, .num 18, .num 24])
        = some (.ok (.num (gcdQ (gcdQ 12 18) 24))) := by
      norm_num [calculateHCF, reduceHCF]
    rw [h, gcdQ_12_18, gcdQ_6_24]
  · have h : calculateLCM (.arr [.num 4, .num 6])
        = some (.ok (.num (lcmQ 4 6))) := by
      norm_num [calculateLCM, reduceLCM]
    rw [h, show lcmQ (4 : ℚ) 6 = 12 from by
      unfold lcmQ; rw [gcdQ_4_6]; norm_num]

/-- Witness for C6: the folds at `hcf([12,18,24])` and `lcm([4,6])`. -/
theorem c6_hcf_lcm_folds_witness :
    calculateHCF (.arr [.num 12, .num 18, .num 24]) = some (.ok (.num 6)) ∧
    calculateLCM (.arr [.num 4, .num 6]) = some (.ok (.num 12)) :=
  ⟨(c6_hcf_lcm_folds 12 [18, 24] (by decide) (by decide)).2.2.1,
   (c6_hcf_lcm_folds 12 [18, 24] (by decide) (by decide)).2.2.2⟩

/-- C10: the `reduce` callback never validates the first array element -
a single-element array is returned unchanged whatever its content, and in
longer arrays a non-positive-integer first element seeds the fold
unvalidated while only the remaining elements are checked. -/
theorem c10_first_element_unvalidated :
    (∀ x : JSVal, calculateHCF (.arr [x]) = some (.ok x) ∧
      calculateLCM (.arr [x]) = some (.ok x)) ∧
    (∀ q : ℚ, ¬(q.den = 1 ∧ 0 < q) → ∀ xs : List ℤ, xs ≠ [] →
      (∀ y ∈ xs, 0 < y) →
      calculateHCF (.arr (.num q :: xs.map (fun (z : ℤ) => JSVal.num (z : ℚ))))
        = some (.ok (.num (xs.foldl (fun (a : ℚ) (z : ℤ) => gcdQ a (z : ℚ)) q))) ∧
      calculateLCM (.arr (.num q :: xs.map (fun (z : ℤ) => JSVal.num (z : ℚ))))
        = some (.ok (.num (xs.foldl (fun (a : ℚ) (z : ℤ) => lcmQ a (z : ℚ)) q)))) := by
  constructor
  · intro x
    exact ⟨rfl, rfl⟩
  · intro q _ xs _ hall
    exact ⟨reduceHCF_int xs q hall, reduceLCM_int xs q hall⟩

/-- Witness for C10: `hcf(["oops"])` succeeds returning the string, and
`hcf([-2, 4])`, whose first element is not a positive integer, raises no
error. -/
theorem c10_first_element_unvalidated_witness :
    calculateHCF (.arr [.str "oops"]) = some (.ok (.str "oops")) ∧
    calculateHCF (.arr [.num (-2), .num 4])
      = some (.ok (.num ([(4 : ℤ)].foldl (fun (a : ℚ) (z : ℤ) => gcdQ a (z : ℚ)) (-2)))) :=
  ⟨(c10_first_element_unvalidated.1 (.str "oops")).1,
   (c10_first_element_unvalidated.2 (-2) (by norm_num) [4] (by decide)
     (by decide)).1⟩

theorem jsmod_neg2_4 : jsmod (-2 : ℚ) 4 = -2 := by
  norm_num [jsmod, jstrunc]

theorem jsmod_4_neg2 : jsmod (4 : ℚ) (-2) = 0 := by
  have h1 : ((4 : ℚ) / (-2)) = ((-2 : ℤ) : ℚ) := by norm_num
  unfold jsmod jstrunc
  rw [h1, if_pos (show ((-2 : ℤ) : ℚ) < 0 by norm_num), Int.ceil_intCast]
  norm_num

theorem gcdQ_neg2_4 : gcdQ (-2 : ℚ) 4 = -2 := by
  rw [gcdQ_step _ _ (by norm_num), jsmod_neg2_4,
    gcdQ_step _ _ (by norm_num), jsmod_4_neg2, gcdQ_zero]

/-- C1 (divergence exhibit): `calculateLCM([-2, 4])` does not fail - the
`reduce` callback never checks the first element, so the call returns `4`
(`(-2 * 4) / gcd(-2, 4) = -8 / -2`), where the spec requires an
`InvalidArgument` failure. -/
theorem c1_lcm_neg2_4_succeeds :
    calculateLCM (.arr [.num (-2), .num 4]) = some (.ok (.num 4)) := by
  have h : calculateLCM (.arr [.num (-2), .num 4])
      = some (.ok (.num (lcmQ (-2) 4))) := by
    norm_num [calculateLCM, reduceLCM]
  rw [h, show lcmQ (-2 : ℚ) 4 = 4 from by
    unfold lcmQ; rw [gcdQ_neg2_4]; norm_num]

/-- The Fibonacci recurrence read off a list: `l[j] = l[j-1] + l[j-2]` for
every index `2 ≤ j < len`. -/
def FibRec (l : List ℤ) : Prop :=
  ∀ j, 2 ≤ j → j < l.length → l.getD j 0 = l.getD (j - 1) 0 + l.getD (j - 2) 0

theorem fibLoop_stop (n i : ℕ) (fib : List ℤ) (h : ¬ i < n) :
    fibLoop n i fib = fib := by
  unfold fibLoop
  simp [h]

theorem fibLoop_go (n i : ℕ) (fib : List ℤ) (h : i < n) :
    fibLoop n i fib
      = fibLoop n (i + 1) (fib ++ [fib.getD (i - 1) 0 + fib.getD (i - 2) 0]) := by
  conv_lhs => unfold fibLoop
  simp [h]

theorem fibLoop_spec (n : ℕ) : ∀ (k i : ℕ) (fib : List ℤ), n - i = k →
    fib.length = i → 2 ≤ i →
    (fibLoop n i fib).length = max i n ∧
    (∀ j, j < fib.length → (fibLoop n i fib).getD j 0 = fib.getD j 0) ∧
    (FibRec fib → FibRec (fibLoop n i fib)) := by
  intro k
  induction k with
  | zero =>
    intro i fib hk hlen hi
    have hni : ¬ i < n := by omega
    rw [fibLoop_stop n i fib hni]
    refine ⟨by omega, fun j _ => rfl, fun h => h⟩
  | succ k ih =>
    intro i fib hk hlen hi
    have hlt : i < n := by omega
    rw [fibLoop_go n i fib hlt]
    have hlen' : (fib ++ [fib.getD (i - 1) 0 + fib.getD (i - 2) 0]).length
        = i + 1 := by
      simp [hlen]
    obtain ⟨ihlen, ihpre, ihrec⟩ :=
      ih (i + 1) (fib ++ [fib.getD (i - 1) 0 + fib.getD (i - 2) 0])
        (by omega) hlen' (by omega)
    refine ⟨by omega, ?_, ?_⟩
    · intro j hj
      rw [ihpre j (by simp [hlen]; omega)]
      exact List.getD_append _ _ _ _ (by omega)
    · intro hrec
      apply ihrec
      intro j hj2 hjlt
      rw [hlen'] at hjlt
      by_cases hji : j < i
      · rw [List.getD_append _ _ _ _ (by omega),
          List.getD_append _ _ _ _ (by omega),
          List.getD_append _ _ _ _ (by omega)]
        exact hrec j hj2 (by omega)
      · have hj : j = i := by omega
        subst hj
        rw [List.getD_append_right _ _ _ _ (by omega)]
        rw [List.getD_append _ _ _ _ (by omega),
          List.getD_append _ _ _ _ (by omega)]
        simp [hlen]

theorem fibCompute_spec (n : ℕ) :
    (fibCompute n).length = n ∧
    (1 ≤ n → (fibCompute n).getD 0 0 = 0) ∧
    (2 ≤ n → (fibCompute n).getD 1 0 = 1) ∧
    FibRec (fibCompute n) := by
  by_cases h0 : n = 0
  · subst h0
    exact ⟨rfl, by omega, by omega, fun j hj hlt => by simp [fibCompute] at hlt⟩
  · by_cases h1 : n = 1
    · subst h1
      refine ⟨rfl, fun _ => rfl, by omega, fun j hj hlt => ?_⟩
      simp [fibCompute] at hlt
      omega
    · have h2 : 2 ≤ n := by omega
      have hfc : fibCompute n = fibLoop n 2 [0, 1] := by
        unfold fibCompute
        rw [if_neg h0, if_neg h1]
      obtain ⟨hlen, hpre, hrec⟩ :=
        fibLoop_spec n (n - 2) 2 [0, 1] rfl rfl (le_refl 2)
      refine ⟨by rw [hfc, hlen]; omega, ?_, ?_, ?_⟩
      · intro _
        rw [hfc, hpre 0 (by simp)]
        rfl
      · intro _
        rw [hfc, hpre 1 (by simp)]
        rfl
      · rw [hfc]
        apply hrec
        intro j hj hlt
        simp at hlt
        omega

/-- C4: `generateFibonacci` accepts exactly the non-negative integers and
returns the first `n` Fibonacci terms: length `n`, beginning `0, 1`,
satisfying `fib[i] = fib[i-1] + fib[i-2]`; `n = 0` yields `[]` and `n = 1`
yields `[0]`; every other input fails with
`Input must be a non-negative integer`. -/
theorem c4_generate_fibonacci (n : ℕ) :
    generateFibonacci (.num (n : ℚ)) = .ok (fibCompute n) ∧
    (fibCompute n).length = n ∧
    (1 ≤ n → (fibCompute n).getD 0 0 = 0) ∧
    (2 ≤ n → (fibCompute n).getD 1 0 = 1) ∧
    (∀ j, 2 ≤ j → j < n → (fibCompute n).getD j 0
      = (fibCompute n).getD (j - 1) 0 + (fibCompute n).getD (j - 2) 0) ∧
    fibCompute 0 = [] ∧ fibCompute 1 = [0] ∧
    (∀ v : JSVal, (∀ q : ℚ, v = .num q → ¬(q.den = 1 ∧ 0 ≤ q)) →
      generateFibonacci v = .error "Input must be a non-negative integer") := by
  obtain ⟨hlen, h0, h1, hrec⟩ := fibCompute_spec n
  refine ⟨?_, hlen, h0, h1, ?_, rfl, rfl, ?_⟩
  · have hden : ((n : ℚ)).den = 1 := Rat.den_natCast n
    have hnn : (0 : ℚ) ≤ (n : ℚ) := by positivity
    have hnum : ((n : ℚ)).num.toNat = n := by
      rw [Rat.num_natCast]
      exact Int.toNat_natCast n
    simp only [generateFibonacci]
    rw [if_pos (⟨hden, hnn⟩ : ((n : ℚ)).den = 1 ∧ (0 : ℚ) ≤ (n : ℚ)), hnum]
  · intro j hj hjn
    exact hrec j hj (by omega)
  · intro v hv
    match v with
    | .num q =>
      simp only [generateFibonacci]
      rw [if_neg (hv q rfl)]
    | .str _ => rfl
    | .bool _ => rfl
    | .null => rfl
    | .arr _ => rfl
    | .obj _ => rfl

/-- Witness for C4 at `n = 5` and a non-integer input. -/
theorem c4_generate_fibonacci_witness :
    (fibCompute 5).getD 0 0 = 0 ∧ (fibCompute 5).getD 1 0 = 1 ∧
    (fibCompute 5).getD 4 0 = (fibCompute 5).getD 3 0 + (fibCompute 5).getD 2 0 ∧
    generateFibonacci (.str "five")
      = .error "Input must be a non-negative integer" :=
  ⟨(c4_generate_fibonacci 5).2.2.1 (by norm_num),
   (c4_generate_fibonacci 5).2.2.2.1 (by norm_num),
   (c4_generate_fibonacci 5).2.2.2.2.1 4 (by norm_num) (by norm_num),
   (c4_generate_fibonacci 0).2.2.2.2.2.2.2 (.str "five")
     (fun q h => JSVal.noConfusion h)⟩

theorem trialLoop_stop (num i : ℕ) (h : ¬ i * i ≤ num) :
    trialLoop num i = true := by
  unfold trialLoop
  rw [dif_neg h]

theorem trialLoop_div (num i : ℕ) (h : i * i ≤ num) (h2 : num % i = 0) :
    trialLoop num i = false := by
  unfold trialLoop
  rw [dif_pos h, if_pos h2]

theorem trialLoop_next (num i : ℕ) (h : i * i ≤ num) (h2 : num % i ≠ 0) :
    trialLoop num i = trialLoop num (i + 2) := by
  conv_lhs => unfold trialLoop
  rw [dif_pos h, if_neg h2]

/-- Correctness of the odd trial-division loop: starting at an odd `i`, it
returns `true` iff no odd `d ≥ i` with `d * d ≤ num` divides `num`. -/
theorem trialLoop_correct (num : ℕ) :
    ∀ k i, num + 1 - i = k → i % 2 = 1 →
      (trialLoop num i = true ↔
        ∀ d, i ≤ d → d % 2 = 1 → d * d ≤ num → ¬ (d ∣ num)) := by
  intro k
  induction k using Nat.strong_induction_on with
  | _ k ih =>
    intro i hk hodd
    by_cases hle : i * i ≤ num
    · have hi1 : 1 ≤ i := by omega
      have hii : i ≤ i * i := by
        calc i = i * 1 := (Nat.mul_one i).symm
          _ ≤ i * i := Nat.mul_le_mul_left i hi1
      have hile : i ≤ num := le_trans hii hle
      by_cases hdvd : num % i = 0
      · rw [trialLoop_div num i hle hdvd]
        constructor
        · intro h
          exact absurd h (by simp)
        · intro h
          exact absurd (Nat.dvd_of_mod_eq_zero hdvd)
            (h i le_rfl hodd hle)
      · rw [trialLoop_next num i hle hdvd]
        rw [ih (num + 1 - (i + 2)) (by omega) (i + 2) rfl (by omega)]
        constructor
        · intro h d hd hdo hdd hdvd'
          by_cases hdi : d = i
          · subst hdi
            exact hdvd (Nat.mod_eq_zero_of_dvd hdvd')
          · have hd2 : i + 2 ≤ d := by omega
            exact h d hd2 hdo hdd hdvd'
        · intro h d hd hdo hdd
          exact h d (by omega) hdo hdd
    · rw [trialLoop_stop num i hle]
      constructor
      · intro _ d hd _ hdd
        exact absurd hdd (by
          have : i * i ≤ d * d := Nat.mul_le_mul hd hd
          omega)
      · intro _
        rfl

/-- For an odd modulus the odd-divisor check suffices: even numbers cannot
divide an odd one. -/
theorem nat_no_divisor_iff_odd (num : ℕ) (hodd : num % 2 = 1) :
    (∀ d, 3 ≤ d → d % 2 = 1 → d * d ≤ num → ¬ (d ∣ num)) ↔
    (∀ d : ℕ, 2 ≤ d → d * d ≤ num → ¬ d ∣ num) := by
  constructor
  · intro h d hd hdd hdvd
    by_cases hpar : d % 2 = 1
    · exact h d (by omega) hpar hdd hdvd
    · have h2 : 2 ∣ d := by omega
      have h2' : 2 ∣ num := dvd_trans h2 hdvd
      omega
  · intro h d hd _ hdd
    exact h d (by omega) hdd

/-- Divisor checks up to the square root transfer between `ℤ` and `ℕ` for
positive integers. -/
theorem int_divisor_bridge (x : ℤ) (hx : 2 < x) :
    (∀ d : ℤ, 2 ≤ d → d ≤ Int.sqrt x → ¬ d ∣ x) ↔
    (∀ d : ℕ, 2 ≤ d → d * d ≤ x.toNat → ¬ d ∣ x.toNat) := by
  have hxx : ((x.toNat : ℕ) : ℤ) = x := Int.toNat_of_nonneg (by omega)
  constructor
  · intro h d hd hdd hdvd
    apply h (d : ℤ) (by exact_mod_cast hd)
    · show (d : ℤ) ≤ Int.sqrt x
      unfold Int.sqrt
      exact_mod_cast Nat.le_sqrt.2 hdd
    · have hc : ((d : ℕ) : ℤ) ∣ ((x.toNat : ℕ) : ℤ) :=
        Int.natCast_dvd_natCast.2 hdvd
      rwa [hxx] at hc
  · intro h d hd hds hdvd
    have hd0 : 0 ≤ d := by omega
    apply h d.toNat (by omega)
    · have h1 : d.toNat ≤ Nat.sqrt x.toNat := by
        unfold Int.sqrt at hds
        omega
      exact Nat.le_sqrt.1 h1
    · have hdd' : ((d.toNat : ℕ) : ℤ) = d := Int.toNat_of_nonneg hd0
      exact Int.natCast_dvd_natCast.1 (by rw [hxx, hdd']; exact hdvd)

/-- `isPrime x` is `true` exactly when `x ≥ 2` has no divisor in
`[2, ⌊√x⌋]`. -/
theorem isPrime_iff (x : ℤ) :
    isPrime x = true ↔
      (2 ≤ x ∧ ∀ d : ℤ, 2 ≤ d → d ≤ Int.sqrt x → ¬ d ∣ x) := by
  by_cases h1 : x < 2
  · simp only [isPrime, if_pos h1]
    constructor
    · intro h
      exact absurd h (by simp)
    · rintro ⟨h2, -⟩
      omega
  · by_cases h2 : x = 2
    · subst h2
      simp only [isPrime, if_neg h1, if_pos rfl]
      constructor
      · intro _
        refine ⟨by norm_num, fun d hd hds => ?_⟩
        intro _
        have hs : Nat.sqrt (Int.toNat 2) < 2 := Nat.sqrt_lt.2 (by norm_num)
        unfold Int.sqrt at hds
        omega
      · intro _
        rfl
    · by_cases h3 : x % 2 = 0
      · simp only [isPrime, if_neg h1, if_neg h2, if_pos h3]
        have hx4 : 4 ≤ x := by omega
        constructor
        · intro h
          exact absurd h (by simp)
        · rintro ⟨-, hall⟩
          exfalso
          have hsq : (2 : ℤ) ≤ Int.sqrt x := by
            unfold Int.sqrt
            have h4 : (2 : ℕ) ≤ Nat.sqrt x.toNat :=
              Nat.le_sqrt.2 (by omega)
            exact_mod_cast h4
          exact hall 2 (by norm_num) hsq (Int.dvd_of_emod_eq_zero h3)
      · simp only [isPrime, if_neg h1, if_neg h2, if_neg h3]
        have hx3 : 3 ≤ x := by omega
        have hnodd : x.toNat % 2 = 1 := by omega
        rw [trialLoop_correct x.toNat (x.toNat + 1 - 3) 3 rfl (by norm_num)]
        rw [nat_no_divisor_iff_odd x.toNat hnodd]
        rw [int_divisor_bridge x (by omega)]
        constructor
        · intro h
          exact ⟨by omega, h⟩
        · rintro ⟨-, h⟩
          exact h

theorem isPrime_1 : isPrime 1 = false := rfl

theorem isPrime_2 : isPrime 2 = true := rfl

theorem isPrime_4 : isPrime 4 = false := rfl

theorem isPrime_6 : isPrime 6 = false := rfl

theorem isPrime_3 : isPrime 3 = true := by
  have h : (3 : ℤ).toNat = 3 := rfl
  simp only [isPrime, h]
  norm_num
  exact trialLoop_stop 3 3 (by norm_num)

theorem isPrime_5 : isPrime 5 = true := by
  have h : (5 : ℤ).toNat = 5 := rfl
  simp only [isPrime, h]
  norm_num
  exact trialLoop_stop 5 3 (by norm_num)

theorem isPrime_7 : isPrime 7 = true := by
  have h : (7 : ℤ).toNat = 7 := rfl
  simp only [isPrime, h]
  norm_num
  exact trialLoop_stop 7 3 (by norm_num)

/-- On an all-integer array the filter traversal keeps exactly the primes,
in order, with duplicates. -/
theorem filterPrimesList_ints (xs : List ℤ) :
    filterPrimesList (xs.map (fun (z : ℤ) => JSVal.num (z : ℚ)))
      = .ok ((xs.filter (fun z => isPrime z)).map
          (fun (z : ℤ) => JSVal.num (z : ℚ))) := by
  induction xs with
  | nil => rfl
  | cons y ys ih =>
    have hden : ((y : ℚ)).den = 1 := Rat.den_intCast y
    simp only [List.map_cons, filterPrimesList]
    rw [if_pos hden, ih, Rat.num_intCast]
    by_cases hp : isPrime y = true
    · simp [List.filter_cons, hp, Except.map]
    · have hp' : isPrime y = false := by simpa using hp
      simp [List.filter_cons, hp', Except.map]

/-- A non-integer element anywhere in the array makes the filter traversal
throw `All elements must be integers`. -/
theorem filterPrimesList_err : ∀ (l : List JSVal),
    (∃ x ∈ l, ∀ q : ℚ, x = .num q → q.den ≠ 1) →
    filterPrimesList l = .error "All elements must be integers" := by
  intro l
  induction l with
  | nil =>
    rintro ⟨x, hx, -⟩
    exact absurd hx (by simp)
  | cons y ys ih =>
    rintro ⟨x, hx, hxq⟩
    match y with
    | .num q =>
      by_cases hden : q.den = 1
      · rcases List.mem_cons.1 hx with rfl | hmem
        · exact absurd hden (hxq q rfl)
        · simp only [filterPrimesList]
          rw [if_pos hden, ih ⟨x, hmem, hxq⟩]
          rfl
      · simp only [filterPrimesList]
        rw [if_neg hden]
    | .str _ => rfl
    | .bool _ => rfl
    | .null => rfl
    | .arr _ => rfl
    | .obj _ => rfl

/-- C5: `isPrime` accepts exactly the integers `≥ 2` with no divisor in
`[2, ⌊√x⌋]`; `filterPrimes` returns the ordered subsequence of primes
(duplicates kept), e.g. `[1..7] → [2,3,5,7]` and `[2,2,3] → [2,2,3]`, and
fails on non-arrays and on arrays containing a non-integer. -/
theorem c5_isprime_filterprimes :
    (∀ x : ℤ, isPrime x = true ↔
      (2 ≤ x ∧ ∀ d : ℤ, 2 ≤ d → d ≤ Int.sqrt x → ¬ d ∣ x)) ∧
    (∀ xs : List ℤ,
      filterPrimes (.arr (xs.map (fun (z : ℤ) => JSVal.num (z : ℚ))))
        = .ok ((xs.filter (fun z => isPrime z)).map
            (fun (z : ℤ) => JSVal.num (z : ℚ)))) ∧
    filterPrimes (.arr (([1, 2, 3, 4, 5, 6, 7] : List ℤ).map
        (fun (z : ℤ) => JSVal.num (z : ℚ))))
      = .ok (([2, 3, 5, 7] : List ℤ).map
          (fun (z : ℤ) => JSVal.num (z : ℚ))) ∧
    filterPrimes (.arr (([2, 2, 3] : List ℤ).map
        (fun (z : ℤ) => JSVal.num (z : ℚ))))
      = .ok (([2, 2, 3] : List ℤ).map
          (fun (z : ℤ) => JSVal.num (z : ℚ))) ∧
    (∀ v : JSVal, (∀ l, v ≠ .arr l) →
      filterPrimes v = .error "Input must be an array") ∧
    (∀ l : List JSVal, (∃ x ∈ l, ∀ q : ℚ, x = .num q → q.den ≠ 1) →
      filterPrimes (.arr l) = .error "All elements must be integers") := by
  have hfl : ∀ xs : List ℤ,
      filterPrimes (.arr (xs.map (fun (z : ℤ) => JSVal.num (z : ℚ))))
        = .ok ((xs.filter (fun z => isPrime z)).map
            (fun (z : ℤ) => JSVal.num (z : ℚ))) :=
    fun xs => filterPrimesList_ints xs
  refine ⟨isPrime_iff, hfl, ?_, ?_, ?_, ?_⟩
  · rw [hfl [1, 2, 3, 4, 5, 6, 7]]
    rw [show ([1, 2, 3, 4, 5, 6, 7] : List ℤ).filter (fun z => isPrime z)
        = [2, 3, 5, 7] from by
      simp [List.filter_cons, isPrime_1, isPrime_2, isPrime_3, isPrime_4,
        isPrime_5, isPrime_6, isPrime_7]]
  · rw [hfl [2, 2, 3]]
    rw [show ([2, 2, 3] : List ℤ).filter (fun z => isPrime z)
        = [2, 2, 3] from by
      simp [List.filter_cons, isPrime_2, isPrime_3]]
  · intro v hv
    match v with
    | .num _ => rfl
    | .str _ => rfl
    | .bool _ => rfl
    | .null => rfl
    | .arr l => exact absurd rfl (hv l)
    | .obj _ => rfl
  · intro l hl
    exact filterPrimesList_err l hl

/-- Witness for C5: a non-array input and an array with a non-integer
element both fail with their specific messages. -/
theorem c5_isprime_filterprimes_witness :
    filterPrimes (.str "nope") = .error "Input must be an array" ∧
    filterPrimes (.arr [.str "a", .num 2])
      = .error "All elements must be integers" :=
  ⟨c5_isprime_filterprimes.2.2.2.2.1 (.str "nope")
    (fun l h => JSVal.noConfusion h),
   c5_isprime_filterprimes.2.2.2.2.2 [.str "a", .num 2]
    ⟨.str "a", by simp, fun q h => JSVal.noConfusion h⟩⟩

/-- C9: the recursive `gcd` terminates on every pair of integer arguments:
each step with `b ≠ 0` strictly shrinks `|b|` (because `|a % b| < |b|`),
and fuel `|b| + 1` suffices for the recursion to reach the `b = 0` base
case and produce `gcd`'s value. -/
theorem c9_gcd_terminates (a b : ℤ) :
    ((b : ℚ) ≠ 0 → |jsmod (a : ℚ) (b : ℚ)| < |(b : ℚ)|) ∧
    gcdFuel (b.natAbs + 1) (a : ℚ) (b : ℚ) = some (gcdQ (a : ℚ) (b : ℚ)) := by
  constructor
  · intro hb
    exact abs_jsmod_lt _ _ hb
  · exact gcdFuel_int_sufficient b.natAbs (a : ℚ) (b : ℚ)
      (Rat.den_intCast a) (Rat.den_intCast b)
      (by rw [Rat.num_intCast])

/-- Witness for C9 at `a = 7`, `b = 3`. -/
theorem c9_gcd_terminates_witness :
    |jsmod ((7 : ℤ) : ℚ) ((3 : ℤ) : ℚ)| < |((3 : ℤ) : ℚ)| ∧
    gcdFuel 4 ((7 : ℤ) : ℚ) ((3 : ℤ) : ℚ)
      = some (gcdQ ((7 : ℤ) : ℚ) ((3 : ℤ) : ℚ)) :=
  ⟨(c9_gcd_terminates 7 3).1 (by norm_num), (c9_gcd_terminates 7 3).2⟩
